import Mathlib

/-!
Shallow embedding of the `uberz` ubershader-archive subsystem:
the spec-language parser and archive builder (`WritableArchive.cpp`),
the builder's serializer, the archive reader (`ArchiveCache.cpp`), and
the requirement matcher used for variant lookup.

Byte buffers are `List Nat` (one entry per byte), machine integers are
`Nat` (all values arising here are far below 2^64, and the few places
where truncation could matter write bytes through `% 256`).
Flag/feature names on the runtime side are byte lists (`List Nat`);
on the builder side they are character lists (`List Char`), since the
parser works on text and the serializer in this revision never emits
the name bytes.
-/

namespace Uberz

/-! ### Character classes and keywords (WritableArchive.cpp) -/

/-- `isAlphaNumeric` from WritableArchive.cpp: digits, underscore, lower and
upper case letters. -/
def isAlphaNumericC (c : Char) : Bool :=
  ('0' ≤ c && c ≤ '9') || c == '_' || ('a' ≤ c && c ≤ 'z') || ('A' ≤ c && c ≤ 'Z')

/-- `isWhitespace` from WritableArchive.cpp: space or tab. -/
def isWhitespaceC (c : Char) : Bool :=
  c == ' ' || c == '\t'

/-- Keyword `"BlendingMode"` (statement dispatch is a prefix test, as in
`Keyword::test`, which uses `strncmp` with the keyword's length). -/
def kwBlendingMode : List Char := "BlendingMode".data

/-- Keyword `"ShadingModel"`. -/
def kwShadingModel : List Char := "ShadingModel".data

/-- `readArchiveFeature`: tests the keywords `unsupported`, `required`,
`optional` (in source order) as prefixes of the cursor, returning the
`ArchiveFeature` enum value (`UNSUPPORTED = 0`, `OPTIONAL = 1`,
`REQUIRED = 2`, from the `ArchiveFeature` declaration in
UbershaderArchive.h) and the number of characters consumed. -/
def readArchiveFeatureC (l : List Char) : Option (Nat × Nat) :=
  if "unsupported".data.isPrefixOf l then some (0, 11)
  else if "required".data.isPrefixOf l then some (2, 8)
  else if "optional".data.isPrefixOf l then some (1, 8)
  else none

/-- `readBlendingMode`: keyword table from WritableArchive.cpp, mapping to
the engine's `BlendingMode` enumeration values in declaration order
(`OPAQUE = 0 … SCREEN = 6`; MaterialEnums.h is outside this tree, only
the order of the enumerators matters here). -/
def readBlendingModeC (l : List Char) : Option (Nat × Nat) :=
  if "opaque".data.isPrefixOf l then some (0, 6)
  else if "transparent".data.isPrefixOf l then some (1, 11)
  else if "add".data.isPrefixOf l then some (2, 3)
  else if "masked".data.isPrefixOf l then some (3, 6)
  else if "fade".data.isPrefixOf l then some (4, 4)
  else if "multiply".data.isPrefixOf l then some (5, 8)
  else if "screen".data.isPrefixOf l then some (6, 6)
  else none

/-- `readShadingModel`: keyword table from WritableArchive.cpp, mapping to
the engine's `Shading` enumeration values in declaration order
(`UNLIT = 0 … SPECULAR_GLOSSINESS = 4`). -/
def readShadingModelC (l : List Char) : Option (Nat × Nat) :=
  if "unlit".data.isPrefixOf l then some (0, 5)
  else if "lit".data.isPrefixOf l then some (1, 3)
  else if "subsurface".data.isPrefixOf l then some (2, 10)
  else if "cloth".data.isPrefixOf l then some (3, 5)
  else if "specularGlossiness".data.isPrefixOf l then some (4, 18)
  else none

/-! ### Builder state (WritableArchive) -/

/-- Modelled from the spec: the `Material` record accumulated by
`WritableArchive` (its header is not in the tree; §4.5 of the spec lists
its contents: name, opaque package bytes, shading model, blending mode,
and a flag map from name to `FeatureSupport`). The flag map is kept as an
association list with unique keys, standing for the `robin_map`. Aggregate
initialization in `addMaterial` value-initializes the enums to 0 and the
flag map to empty. -/
structure BuilderMaterial where
  name : List Char
  package : List Nat
  shadingModel : Nat
  blendingMode : Nat
  flags : List (List Char × Nat)
deriving DecidableEq

/-- Modelled from the spec: `WritableArchive`'s state (header not in the
tree; §4.5/§9 describe a pre-sized material array together with an
externally incremented current index, starting with no current variant,
i.e. index `-1`). The array is kept as a growing list; `mMaterialIndex`
is the builder's current-variant index and `mLineNumber` the per-variant
line counter. -/
structure WritableArchive where
  materials : List BuilderMaterial
  mMaterialIndex : Int
  mLineNumber : Nat
deriving DecidableEq

/-- Modelled from the spec: a fresh builder for a given number of
materials (the capacity only pre-sizes the C++ array and does not affect
the observable state, so it is ignored here). -/
def mkWritableArchive (_materialCount : Nat) : WritableArchive :=
  ⟨[], -1, 1⟩

/-- `WritableArchive::addMaterial`: stores a new material record at the
incremented current index (name and copied package bytes, remaining
fields value-initialized) and resets the line counter to 1. -/
def addMaterial (b : WritableArchive) (name : List Char) (package : List Nat) :
    WritableArchive :=
  { materials := b.materials ++ [⟨name, package, 0, 0, []⟩],
    mMaterialIndex := b.mMaterialIndex + 1,
    mLineNumber := 1 }

/-- Fallback material used to totalize indexing (reachable states always
index in bounds). -/
def defaultBuilderMaterial : BuilderMaterial := ⟨[], [], 0, 0, []⟩

/-- `mMaterials[mMaterialIndex]`: the variant currently being populated. -/
def curMaterial (b : WritableArchive) : BuilderMaterial :=
  b.materials.getD b.mMaterialIndex.toNat defaultBuilderMaterial

/-- `robin_map::operator[]` followed by assignment: replace the value of an
existing key in place, or append a fresh binding (last write wins). -/
def mapInsert : List (List Char × Nat) → List Char → Nat → List (List Char × Nat)
  | [], k, v => [(k, v)]
  | (k', v') :: rest, k, v =>
      if k' = k then (k', v) :: rest else (k', v') :: mapInsert rest k v

/-- First-match association-list lookup on the builder's flag map. -/
def lookupFlagMap : List (List Char × Nat) → List Char → Option Nat
  | [], _ => none
  | (k, v) :: rest, n => if k = n then some v else lookupFlagMap rest n

/-- A syntax error as emitted by `emitSyntaxError`: variant name, line
number, 1-based column (`1 + cursor - line` at the moment of the error),
and message. -/
structure SynError where
  variant : List Char
  line : Nat
  column : Nat
  message : String
deriving DecidableEq

/-- The two failure modes of `addSpecLine`: the `assert_invariant` on the
current-variant index, and a syntax error (which in the tool calls
`exit(1)`, so no state mutated before the error is observable). -/
inductive SpecError where
  | assertViolation : SpecError
  | parseErr : SynError → SpecError
deriving DecidableEq

/-- `ws? '='`: skip whitespace, then consume one `'='`. `pos` is the
0-based offset of `l` within the line; on failure the column is
`1 + cursor - line` with the cursor already advanced past the offending
character (the source does `*cursor++ != '='`). -/
def parseEq (l : List Char) (pos : Nat) : Except (Nat × String) (List Char × Nat) :=
  let w := l.takeWhile isWhitespaceC
  match l.dropWhile isWhitespaceC with
  | '=' :: r => .ok (r, pos + w.length + 1)
  | _ => .error (pos + w.length + 2, "expected equal sign")

/-- Common shape of `parseBlendingMode` / `parseShadingModel` /
the value part of `parseFeatureFlag`: `ws? '=' ws? <keyword>`, where
`reader` is one of the keyword readers above and `msg` the error message
used when it consumes nothing. Returns the parsed value, the rest of the
line, and the new position. -/
def parseEnumTail (reader : List Char → Option (Nat × Nat)) (msg : String)
    (l : List Char) (pos : Nat) : Except (Nat × String) (Nat × List Char × Nat) :=
  match parseEq l pos with
  | .error e => .error e
  | .ok (l1, pos1) =>
    let w := l1.takeWhile isWhitespaceC
    let l2 := l1.dropWhile isWhitespaceC
    match reader l2 with
    | none => .error (pos1 + w.length + 1, msg)
    | some (v, n) => .ok (v, l2.drop n, pos1 + w.length + n)

/-- `parseFeatureFlag`: identifier, `ws? '=' ws?`, support keyword; on
success the identifier is written into the flag map. -/
def parseFlagStmt (mat : BuilderMaterial) (line : List Char) :
    Except (Nat × String) (BuilderMaterial × List Char × Nat) :=
  let ident := line.takeWhile isAlphaNumericC
  if ident = [] then .error (1, "expected identifier")
  else
    match parseEnumTail readArchiveFeatureC "expected unsupported / optional / required"
        (line.dropWhile isAlphaNumericC) ident.length with
    | .error e => .error e
    | .ok (v, rest, pos) =>
        .ok ({ mat with flags := mapInsert mat.flags ident v }, rest, pos)

/-- `cursor[0] == 0 || cursor[0] == '#'`: empty lines and comment lines
only bump the line counter. -/
def isBlankOrComment : List Char → Bool
  | [] => true
  | c :: _ => c == '#'

/-- `WritableArchive::addSpecLine`. The `assert_invariant` on
`mMaterialIndex > -1` runs first; empty and `#`-comment lines only bump
the line counter; otherwise the statement is dispatched by prefix test on
`BlendingMode` / `ShadingModel` and parsed as a flag statement otherwise;
finally any unconsumed character is a trailing-character error. Errors
carry `(variant name, line, column, message)`. -/
def addSpecLine (b : WritableArchive) (line : List Char) :
    Except SpecError WritableArchive :=
  if b.mMaterialIndex ≤ -1 then .error .assertViolation
  else
    let mat := curMaterial b
    if isBlankOrComment line then .ok { b with mLineNumber := b.mLineNumber + 1 }
    else
        let step : Except (Nat × String) (BuilderMaterial × List Char × Nat) :=
          if kwBlendingMode.isPrefixOf line then
            match parseEnumTail readBlendingModeC "expected lowercase blending mode enum"
                (line.drop 12) 12 with
            | .error e => .error e
            | .ok (v, rest, pos) => .ok ({ mat with blendingMode := v }, rest, pos)
          else if kwShadingModel.isPrefixOf line then
            match parseEnumTail readShadingModelC "expected lowercase shading enum"
                (line.drop 12) 12 with
            | .error e => .error e
            | .ok (v, rest, pos) => .ok ({ mat with shadingModel := v }, rest, pos)
          else parseFlagStmt mat line
        match step with
        | .error (col, msg) => .error (.parseErr ⟨mat.name, b.mLineNumber, col, msg⟩)
        | .ok (mat2, rest, pos) =>
          match rest with
          | [] => .ok { b with
                        materials := b.materials.set b.mMaterialIndex.toNat mat2,
                        mLineNumber := b.mLineNumber + 1 }
          | _ :: _ => .error (.parseErr
              ⟨mat.name, b.mLineNumber, pos + 1, "unexpected trailing character"⟩)

/-- The tool's per-file loop (main.cpp): feed spec lines sequentially; a
failing line aborts the whole build (the source exits the process), so an
error on any line means no archive is produced. -/
def addSpecLines (b : WritableArchive) : List (List Char) → Except SpecError WritableArchive
  | [] => .ok b
  | l :: rest =>
    match addSpecLine b l with
    | .error e => .error e
    | .ok b' => addSpecLines b' rest

/-! ### Serializer (WritableArchive::serialize) -/

/-- Little-endian bytes of a `uint32_t`. -/
def u32le (x : Nat) : List Nat :=
  [x % 256, x / 256 % 256, x / 65536 % 256, x / 16777216 % 256]

/-- Little-endian bytes of a `uint64_t`. -/
def u64le (x : Nat) : List Nat :=
  [x % 256, x / 256 % 256, x / 65536 % 256, x / 16777216 % 256,
   x / 4294967296 % 256, x / 1099511627776 % 256,
   x / 281474976710656 % 256, x / 72057594037927936 % 256]

/-- `sizeof(ReadableArchive)` = u32 + u32 + u64 + u64 = 24 bytes. -/
def headerSize : Nat := 24

/-- `sizeof(ArchiveSpec)` = u32 + u32 + 4 × u64 = 40 bytes. -/
def specSize : Nat := 40

/-- `sizeof(ArchiveFlag)` = u64 + u64 = 16 bytes. -/
def flagSize : Nat := 16

/-- The magic constant `'UBER'` written by the serializer
(multi-character literal, `'U' << 24 | 'B' << 16 | 'E' << 8 | 'R'`). -/
def uberMagic : Nat := 0x55424552

/-- Bytes budgeted by `serialize` for one material's flag table entries
plus its NUL-terminated flag-name strings. -/
def matFlagBytes (m : BuilderMaterial) : Nat :=
  (m.flags.map (fun f => flagSize + f.1.length + 1)).sum

/-- Total bytes budgeted for all flag tables and flag names. -/
def totalFlagBytes (mats : List BuilderMaterial) : Nat :=
  (mats.map matFlagBytes).sum

/-- Total bytes budgeted for all package blobs. -/
def totalPackageBytes (mats : List BuilderMaterial) : Nat :=
  (mats.map (fun m => m.package.length)).sum

/-- The `ArchiveSpec` records emitted by `serialize`: shading model,
blending mode, flag count, running flag-table offset (advanced by
`flagsCount * sizeof(ArchiveFlag)` only — the name bytes are not skipped),
package byte count, and running package offset. -/
def buildSpecEntries : List BuilderMaterial → Nat → Nat → List (List Nat)
  | [], _, _ => []
  | m :: rest, flagOff, pkgOff =>
    (u32le m.shadingModel ++ u32le m.blendingMode ++ u64le m.flags.length ++
     u64le flagOff ++ u64le m.package.length ++ u64le pkgOff)
    :: buildSpecEntries rest (flagOff + flagSize * m.flags.length)
         (pkgOff + m.package.length)

/-- `WritableArchive::serialize`, byte for byte as the source stands in
this revision: the header and the spec array are written, the flag table,
flag-name, and package regions are budgeted in `byteCount` but never
filled (the two `// TODO` blocks leave the `flags` vector and `flagNames`
string empty and no package copy is emitted), so those trailing bytes
keep the buffer's value-initialized 0. -/
def serialize (b : WritableArchive) : List Nat :=
  let n := b.materials.length
  let flagBytes := totalFlagBytes b.materials
  let pkgBytes := totalPackageBytes b.materials
  u32le uberMagic ++ u32le 0 ++ u64le n ++ u64le headerSize ++
  (buildSpecEntries b.materials (headerSize + specSize * n)
      (headerSize + specSize * n + flagBytes)).flatten ++
  List.replicate (flagBytes + pkgBytes) 0

/-- The final `assert_invariant` of `serialize`: the write cursor (header,
specs, the empty flag vector and the empty name string) must equal the
computed `byteCount`. -/
def serializeAssertOk (b : WritableArchive) : Bool :=
  headerSize + specSize * b.materials.length ==
    headerSize + specSize * b.materials.length +
      totalFlagBytes b.materials + totalPackageBytes b.materials

/-! ### Reader (ArchiveCache::load and the patched view)

`ArchiveCache::load` copies the buffer and calls
`convertOffsetsToPointers` (declared in uberz/ReadableArchive.h, which is
not in this tree). Modelled from the spec: §4.1 — every offset field is
rewritten into a view over the same buffer (specs at `specsOffset`, flag
tables at `flagsOffset`, NUL-terminated names at `nameOffset`, packages
at `packageOffset`), and per §9 this conversion is raw offset patching
with no validation of any kind. `none` below marks only a physically
unrepresentable read (a byte range outside the buffer, which in the C++
is wild pointer arithmetic, not a detected error). -/

/-- Read a `uint32_t` at byte offset `off`. -/
def readU32 (buf : List Nat) (off : Nat) : Option Nat :=
  if off + 4 ≤ buf.length then
    some (buf.getD off 0 + 256 * (buf.getD (off + 1) 0 +
      256 * (buf.getD (off + 2) 0 + 256 * buf.getD (off + 3) 0)))
  else none

/-- Read a `uint64_t` at byte offset `off`. -/
def readU64 (buf : List Nat) (off : Nat) : Option Nat :=
  if off + 8 ≤ buf.length then
    some (buf.getD off 0 + 256 * (buf.getD (off + 1) 0 +
      256 * (buf.getD (off + 2) 0 + 256 * (buf.getD (off + 3) 0 +
      256 * (buf.getD (off + 4) 0 + 256 * (buf.getD (off + 5) 0 +
      256 * (buf.getD (off + 6) 0 + 256 * buf.getD (off + 7) 0)))))))
  else none

/-- Read `n` raw bytes at offset `off`. -/
def readBytes (buf : List Nat) (off n : Nat) : Option (List Nat) :=
  if off + n ≤ buf.length then some ((buf.drop off).take n) else none

/-- The bytes before the first NUL, or `none` if no NUL occurs. -/
def takeUntilNul : List Nat → Option (List Nat)
  | [] => none
  | b :: rest => if b = 0 then some [] else (takeUntilNul rest).map (b :: ·)

/-- Read a NUL-terminated byte string starting at offset `off`. -/
def readCStr (buf : List Nat) (off : Nat) : Option (List Nat) :=
  takeUntilNul (buf.drop off)

/-- The in-memory feature flag (`ArchiveFlag` after patching): name bytes
and the raw `ArchiveFeature` value (`uint64_t`). -/
structure ArchiveFlag where
  name : List Nat
  value : Nat
deriving DecidableEq

/-- The in-memory variant spec (`ArchiveSpec` after patching). -/
structure ArchiveSpec where
  shadingModel : Nat
  blendingMode : Nat
  flags : List ArchiveFlag
  package : List Nat
deriving DecidableEq

/-- The in-memory archive (`ReadableArchive` after patching; the spec
count is the length of `specs`). -/
structure ReadableArchive where
  magic : Nat
  version : Nat
  specs : List ArchiveSpec
deriving DecidableEq

/-- Patch one `ArchiveFlag` at offset `off`: `nameOffset` becomes the
NUL-terminated name, `value` is read verbatim. -/
def readFlag (buf : List Nat) (off : Nat) : Option ArchiveFlag := do
  let nameOff ← readU64 buf off
  let v ← readU64 buf (off + 8)
  let name ← readCStr buf nameOff
  pure ⟨name, v⟩

/-- Patch `n` consecutive `ArchiveFlag` entries starting at `off`. -/
def readFlags (buf : List Nat) (off : Nat) : Nat → Option (List ArchiveFlag)
  | 0 => some []
  | n + 1 => do
    let f ← readFlag buf off
    let rest ← readFlags buf (off + flagSize) n
    pure (f :: rest)

/-- Patch one `ArchiveSpec` at offset `off`. -/
def readSpec (buf : List Nat) (off : Nat) : Option ArchiveSpec := do
  let sm ← readU32 buf off
  let bm ← readU32 buf (off + 4)
  let flagsCount ← readU64 buf (off + 8)
  let flagsOff ← readU64 buf (off + 16)
  let pkgCount ← readU64 buf (off + 24)
  let pkgOff ← readU64 buf (off + 32)
  let flags ← readFlags buf flagsOff flagsCount
  let pkg ← readBytes buf pkgOff pkgCount
  pure ⟨sm, bm, flags, pkg⟩

/-- Patch `n` consecutive `ArchiveSpec` entries starting at `off`. -/
def readSpecs (buf : List Nat) (off : Nat) : Nat → Option (List ArchiveSpec)
  | 0 => some []
  | n + 1 => do
    let s ← readSpec buf off
    let rest ← readSpecs buf (off + specSize) n
    pure (s :: rest)

/-- `ArchiveCache::load` + the spec-modelled `convertOffsetsToPointers`:
copy the buffer and patch every offset into a view. No magic, version, or
bounds validation is performed by the source (its comment: "zero
parsing. Just copy the data blob … and convert all offset fields into
pointers"). -/
def loadArchive (buf : List Nat) : Option ReadableArchive := do
  let m ← readU32 buf 0
  let v ← readU32 buf 4
  let n ← readU64 buf 8
  let specsOff ← readU64 buf 16
  let specs ← readSpecs buf specsOff n
  pure ⟨m, v, specs⟩

/-! ### Requirement matcher and material cache (ArchiveCache.cpp) -/

/-- `ArchiveRequirements`: shading model, blending mode, and the feature
map (a `robin_map` with unique keys, kept as an association list; names
are NUL-free byte strings of `CString`s). -/
structure ArchiveRequirements where
  shadingModel : Nat
  blendingMode : Nat
  features : List (List Nat × Bool)
deriving DecidableEq

/-- First-match association-list lookup, standing for `robin_map::find`
(exact `CString` key equality). -/
def lookupFeature : List (List Nat × Bool) → List Nat → Option Bool
  | [], _ => none
  | (k, v) :: rest, n => if k = n then some v else lookupFeature rest n

/-- The inner loop of the first suitability pass: scan the spec's flags
for the first one whose name `strIsEqual`s the required feature name —
`strIsEqual(a, b)` is `strncmp(a.c_str(), b, a.size()) == 0`, i.e. a
*prefix* test of `a` against `b` — and report whether that flag's value
is not `UNSUPPORTED` (the loop `break`s at the first name match). -/
def featureFound (flags : List ArchiveFlag) (name : List Nat) : Bool :=
  match flags with
  | [] => false
  | f :: rest =>
    if name.isPrefixOf f.name then f.value != 0 else featureFound rest name

/-- The suitability test of `ArchiveCache::getMaterial` for one spec:
equal blending mode, equal shading model, every feature required by the
mesh is `featureFound`, and (only evaluated when the previous passes
succeed, which does not change the value) every `REQUIRED` spec flag is
present in the feature map with value `true`. -/
def specSuitable (spec : ArchiveSpec) (req : ArchiveRequirements) : Bool :=
  (spec.blendingMode == req.blendingMode) &&
  (spec.shadingModel == req.shadingModel) &&
  (req.features.all fun p => !p.2 || featureFound spec.flags p.1) &&
  (spec.flags.all fun f => !(f.value == 2) || (lookupFeature req.features f.name == some true))

/-- The index scan of `getMaterial`: first spec (in stored order) that is
suitable, with `i` the index of the list head. -/
def firstSuitable (specs : List ArchiveSpec) (req : ArchiveRequirements) (i : Nat) :
    Option Nat :=
  match specs with
  | [] => none
  | s :: rest => if specSuitable s req then some i else firstSuitable rest req (i + 1)

/-- The mutable part of `ArchiveCache`: the loaded specs, the
per-spec lazily filled `Material*` slots (handles are modelled as the
rank of the compile call that produced them), and the log of invocations
of the external material compiler (`Material::Builder::build`), one entry
per call, recording which spec index was compiled. -/
structure CacheState where
  specs : List ArchiveSpec
  materials : List (Option Nat)
  compiles : List Nat
deriving DecidableEq

/-- The cache right after `load`: one empty (`nullptr`) slot per spec
(`FixedCapacityVector<Material*>(specsCount)`), no compiler calls yet. -/
def mkCacheState (a : ReadableArchive) : CacheState :=
  ⟨a.specs, List.replicate a.specs.length none, []⟩

/-- `ArchiveCache::getMaterial`: scan the specs in stored order; at the
first suitable one, return the cached handle if the slot is filled,
otherwise invoke the external compiler (appending to the log), cache the
fresh handle in the slot and return it; with no suitable spec return
`none` (the source returns `nullptr`). -/
def getMaterial (s : CacheState) (req : ArchiveRequirements) :
    Option Nat × CacheState :=
  match firstSuitable s.specs req 0 with
  | none => (none, s)
  | some i =>
    match s.materials.getD i none with
    | some h => (some h, s)
    | none =>
      let h := s.compiles.length
      (some h, ⟨s.specs, s.materials.set i (some h), s.compiles ++ [i]⟩)

/-- `ArchiveCache::getDefaultMaterial` (UbershaderArchive.h):
`return mMaterials[0];` — the raw slot content, with no compilation. -/
def getDefaultMaterial (s : CacheState) : Option Nat :=
  s.materials.getD 0 none

/-- Byte string of an ASCII name, for concrete inputs. -/
def strBytes (s : String) : List Nat := s.data.map Char.toNat

/-- Default element used with `List.getD` over spec lists. -/
def dSpec : ArchiveSpec := ⟨0, 0, [], []⟩

/-! ### Concrete inputs used by individual theorems -/

/-- Builder holding one material `a` with package bytes `[1, 2, 3]` and
the single flag `f = optional` (the state after `addMaterial` and one
`addSpecLine`). -/
def c1Built : WritableArchive :=
  ⟨[⟨"a".data, [1, 2, 3], 0, 0, [("f".data, 1)]⟩], 0, 2⟩

/-- What a lossless round trip of `c1Built` would have to produce for its
single spec: same enums, the flag `f = OPTIONAL`, the package `[1,2,3]`. -/
def c1Expected : ArchiveSpec := ⟨0, 0, [⟨strBytes "f", 1⟩], [1, 2, 3]⟩

/-- A 24-byte buffer whose header fields parse but whose magic is
`0xDEADBEEF` (zero specs, specs offset 24). -/
def badMagicBuf : List Nat := u32le 0xDEADBEEF ++ u32le 7 ++ u64le 0 ++ u64le 24

/-- Spec with flag `Skinning = OPTIONAL` (shading 1 = lit, blending 0 =
opaque). -/
def skinningSpec : ArchiveSpec := ⟨1, 0, [⟨strBytes "Skinning", 1⟩], []⟩

/-- Requirement asking for feature `Skin` (a strict prefix of
`Skinning`). -/
def skinReq : ArchiveRequirements := ⟨1, 0, [(strBytes "Skin", true)]⟩

/-- Requirement asking for feature `Zebra`, absent from
`skinningSpec`. -/
def zebraReq : ArchiveRequirements := ⟨1, 0, [(strBytes "Zebra", true)]⟩

/-- A one-spec archive for the default-material counterexample. -/
def oneSpecArchive : ReadableArchive := ⟨uberMagic, 0, [⟨0, 0, [], [1, 2, 3]⟩]⟩

/-- Two specs with equal enums: index 0 carries `Morphing = UNSUPPORTED`,
index 1 has no flags (the §8 scenario shape). -/
def twoSpecCache : CacheState :=
  mkCacheState ⟨uberMagic, 0,
    [⟨1, 0, [⟨strBytes "Morphing", 0⟩], [9]⟩, ⟨1, 0, [], [7]⟩]⟩

/-- Requirement matching both specs of `twoSpecCache`. -/
def plainReq : ArchiveRequirements := ⟨1, 0, []⟩

/-- Requirement needing `Morphing`, which spec 0 marks `UNSUPPORTED` and
spec 1 lacks. -/
def morphingReq : ArchiveRequirements := ⟨1, 0, [(strBytes "Morphing", true)]⟩

/-- Spec whose only flag `X` is `REQUIRED`. -/
def requiredXSpec : ArchiveSpec := ⟨1, 0, [⟨strBytes "X", 2⟩], []⟩

/-- Builder with one open material `m` and an empty package. -/
def oneMatBuilder : WritableArchive := addMaterial (mkWritableArchive 1) "m".data []

/-! ### Helper lemmas -/

theorem isWhitespaceC_not_alnum {c : Char} (h : isWhitespaceC c = true) :
    isAlphaNumericC c = false := by
  simp only [isWhitespaceC, Bool.or_eq_true, beq_iff_eq] at h
  rcases h with h | h <;> subst h <;> decide

theorem takeWhile_append_all {p : Char → Bool} :
    ∀ (id r : List Char), (∀ c ∈ id, p c = true) → (∀ c ∈ r.take 1, p c = false) →
      (id ++ r).takeWhile p = id ∧ (id ++ r).dropWhile p = r := by
  intro id
  induction id with
  | nil =>
    intro r _ hr
    cases r with
    | nil => simp
    | cons c cs =>
      have hc := hr c (by simp)
      simp [List.takeWhile_cons, List.dropWhile_cons, hc]
  | cons a as ih =>
    intro r hid hr
    have ha := hid a (by simp)
    have h := ih r (fun c hc => hid c (by simp [hc])) hr
    simp [List.takeWhile_cons, List.dropWhile_cons, ha, h.1, h.2]

theorem isPrefixOf_append_of_head_not_alnum :
    ∀ (kw id r : List Char), (∀ c ∈ kw, isAlphaNumericC c = true) →
      (∀ c ∈ r.take 1, isAlphaNumericC c = false) →
      kw.isPrefixOf (id ++ r) = kw.isPrefixOf id := by
  intro kw
  induction kw with
  | nil => intro id r _ _; simp [List.isPrefixOf]
  | cons k kt ih =>
    intro id r hkw hr
    cases id with
    | nil =>
      cases r with
      | nil => rfl
      | cons c cs =>
        have hk := hkw k (by simp)
        have hc := hr c (by simp)
        have hne : (k == c) = false := by
          cases hkc : k == c
          · rfl
          · rw [beq_iff_eq] at hkc; subst hkc; rw [hk] at hc; cases hc
        simp [List.isPrefixOf, hne]
    | cons a as =>
      simp [List.isPrefixOf, ih as r (fun c hc => hkw c (by simp [hc])) hr]

theorem lookupFlagMap_mapInsert (m : List (List Char × Nat)) (k : List Char) (v : Nat) :
    lookupFlagMap (mapInsert m k v) k = some v := by
  induction m with
  | nil => simp [mapInsert, lookupFlagMap]
  | cons p rest ih =>
    obtain ⟨k', v'⟩ := p
    by_cases h : k' = k
    · simp [mapInsert, h, lookupFlagMap]
    · simp [mapInsert, h, lookupFlagMap, ih]

theorem getD_set_self {α : Type} (l : List α) (i : Nat) (x d : α) (h : i < l.length) :
    (l.set i x).getD i d = x := by
  induction l generalizing i with
  | nil => simp at h
  | cons a as ih =>
    cases i with
    | zero => simp
    | succ j => simpa using ih j (by simpa using h)

theorem firstSuitable_none_iff (specs : List ArchiveSpec) (req : ArchiveRequirements)
    (k : Nat) : firstSuitable specs req k = none ↔
      ∀ s ∈ specs, specSuitable s req = false := by
  induction specs generalizing k with
  | nil => simp [firstSuitable]
  | cons s rest ih =>
    by_cases hs : specSuitable s req
    · simp [firstSuitable, hs]
    · simp only [Bool.not_eq_true] at hs
      simp [firstSuitable, hs, ih (k + 1)]

theorem firstSuitable_lt (specs : List ArchiveSpec) (req : ArchiveRequirements) :
    ∀ (k i : Nat), firstSuitable specs req k = some i → k ≤ i ∧ i - k < specs.length := by
  induction specs with
  | nil => intro k i h; simp [firstSuitable] at h
  | cons s rest ih =>
    intro k i h
    by_cases hs : specSuitable s req
    · simp [firstSuitable, hs] at h
      simp only [List.length_cons]
      omega
    · simp only [Bool.not_eq_true] at hs
      simp [firstSuitable, hs] at h
      have := ih (k + 1) i h
      simp only [List.length_cons]
      omega

theorem firstSuitable_of_least (specs : List ArchiveSpec) (req : ArchiveRequirements) :
    ∀ (k i : Nat), i < specs.length → specSuitable (specs.getD i dSpec) req = true →
      (∀ j, j < i → specSuitable (specs.getD j dSpec) req = false) →
      firstSuitable specs req k = some (k + i) := by
  induction specs with
  | nil => intro k i hi; simp at hi
  | cons s rest ih =>
    intro k i hi hsuit hleast
    cases i with
    | zero =>
      simp only [List.getD_cons_zero] at hsuit
      simp [firstSuitable, hsuit]
    | succ i' =>
      have h0 : specSuitable s req = false := by
        have := hleast 0 (Nat.succ_pos i')
        simpa using this
      simp only [firstSuitable, h0, Bool.false_eq_true, if_false]
      have := ih (k + 1) i' (by simpa using hi) (by simpa using hsuit)
        (fun j hj => by simpa using hleast (j + 1) (by omega))
      rw [this]
      congr 1
      omega

theorem featureFound_exists (flags : List ArchiveFlag) (name : List Nat)
    (h : featureFound flags name = true) :
    ∃ f ∈ flags, name.isPrefixOf f.name = true ∧ f.value ≠ 0 := by
  induction flags with
  | nil => simp [featureFound] at h
  | cons f rest ih =>
    by_cases hp : name.isPrefixOf f.name
    · refine ⟨f, by simp, hp, ?_⟩
      rw [featureFound, if_pos hp] at h
      simpa using h
    · rw [featureFound, if_neg hp] at h
      obtain ⟨g, hg, hgp⟩ := ih h
      exact ⟨g, by simp [hg], hgp⟩

theorem all_congr_eq {α : Type} (l : List α) (p q : α → Bool)
    (h : ∀ x ∈ l, p x = q x) : l.all p = l.all q := by
  induction l with
  | nil => rfl
  | cons a as ih =>
    simp [List.all_cons, h a (by simp), ih (fun x hx => h x (by simp [hx]))]

theorem addSpecLine_never_assert (b : WritableArchive) (h : -1 < b.mMaterialIndex)
    (line : List Char) : addSpecLine b line ≠ .error .assertViolation := by
  unfold addSpecLine
  rw [if_neg (by omega)]
  simp only
  split
  · simp
  · split
    · simp
    · split
      · simp
      · simp

/-! ### Claim theorems -/

/-- Claim C1 (code bug): the serialize-then-load round trip does *not*
reproduce flag name/support pairs or package bytes. For the builder
holding material `a` with flag `f = optional` and package `[1,2,3]`,
`serialize` only writes the header and the spec array (the flag table,
name, and package regions are left at their value-initialized zeros — the
two `// TODO` blocks — and `serialize`'s own final size assertion fails,
`serializeAssertOk = false`); loading the result yields a flag named
`REBU` (the magic/version bytes at offset 0 read as a NUL-terminated
string) with value `UNSUPPORTED` and a zeroed package, not the built
`f = OPTIONAL` and `[1,2,3]`. -/
theorem serialize_load_roundtrip_violation :
    addSpecLine (addMaterial (mkWritableArchive 1) "a".data [1, 2, 3]) "f=optional".data
      = .ok c1Built ∧
    serializeAssertOk c1Built = false ∧
    loadArchive (serialize c1Built)
      = some ⟨uberMagic, 0, [⟨0, 0, [⟨[82, 69, 66, 85], 0⟩], [0, 0, 0]⟩]⟩ ∧
    (⟨0, 0, [⟨[82, 69, 66, 85], 0⟩], [0, 0, 0]⟩ : ArchiveSpec) ≠ c1Expected := by
  refine ⟨by rfl, by decide, by decide, by decide⟩

/-- Claim C2 counterexample: a buffer whose magic is `0xDEADBEEF` (not
`'UBER'`) and whose version is 7 (not 0) is loaded successfully — `load`
performs no magic or version validation and has no failure path, contrary
to the claimed FormatError rejection. -/
theorem load_bad_magic_accepted_cex :
    loadArchive badMagicBuf = some ⟨0xDEADBEEF, 7, []⟩ ∧ 0xDEADBEEF ≠ uberMagic := by
  refine ⟨by decide, by decide⟩

/-- Claim C2 (amended): `load` validates nothing — any header magic and
version whatsoever are accepted, the offsets are patched into views
unconditionally, and no FormatError exists. Here: every 24-byte buffer
with arbitrary `magic`/`version` fields, zero specs and specs offset 24
loads successfully, reproducing those arbitrary fields. -/
theorem load_no_magic_version_validation (m v : Nat)
    (hm : m < 4294967296) (hv : v < 4294967296) :
    loadArchive (u32le m ++ u32le v ++ u64le 0 ++ u64le headerSize)
      = some ⟨m, v, []⟩ := by
  simp only [u32le, u64le, headerSize, loadArchive, readU32, readU64,
    List.cons_append, List.nil_append, List.length_cons, List.length_nil,
    List.getD_cons_zero, List.getD_cons_succ, bind, Option.bind]
  norm_num [readSpecs]
  refine ⟨?_, ?_⟩ <;> omega

/-- Witness for C2's amended theorem at `magic = 1`, `version = 2`. -/
theorem load_no_magic_version_validation_witness :
    loadArchive (u32le 1 ++ u32le 2 ++ u64le 0 ++ u64le headerSize)
      = some ⟨1, 2, []⟩ :=
  load_no_magic_version_validation 1 2 (by decide) (by decide)

/-- Claim C3 counterexample, two parts. (1) The spec with the single
flag `Skinning = OPTIONAL` *matches* the requirement `{Skin : true}`
although it contains no flag named exactly `Skin` — `strIsEqual` is
`strncmp(a.c_str(), b, a.size())`, a prefix test, so exact name equality
is not what the code implements. (2) The same spec does *not* match the
requirement `{Zebra : true}` although `Zebra` is absent from its flag
list — an absent feature with boolean `true` fails the spec (as spec §8
confirms), so it is false that absent features impose no constraint. -/
theorem matcher_exact_name_cex :
    (specSuitable skinningSpec skinReq = true ∧
      (skinningSpec.flags.map ArchiveFlag.name).contains (strBytes "Skin") = false) ∧
    (specSuitable skinningSpec zebraReq = false ∧
      (skinningSpec.flags.map ArchiveFlag.name).contains (strBytes "Zebra") = false ∧
      skinningSpec.shadingModel = zebraReq.shadingModel ∧
      skinningSpec.blendingMode = zebraReq.blendingMode) := by
  refine ⟨⟨by decide, by decide⟩, by decide, by decide, by decide, by decide⟩

/-- Claim C3 (amended): with equal enums, a spec matches only if, for
every requirement feature with boolean `true`, the spec contains a flag
whose name has the feature name as a *prefix* and whose support is not
`Unsupported`; a feature with boolean `false` imposes no constraint
(provided its name is not otherwise present in the requirement map); a
`true` feature with no such flag fails the spec. -/
theorem matcher_prefix_name_semantics :
    (∀ (spec : ArchiveSpec) (req : ArchiveRequirements) (n : List Nat),
      specSuitable spec req = true → (n, true) ∈ req.features →
      ∃ f ∈ spec.flags, n.isPrefixOf f.name = true ∧ f.value ≠ 0) ∧
    (∀ (spec : ArchiveSpec) (sm bm : Nat) (n : List Nat)
      (fs : List (List Nat × Bool)), lookupFeature fs n = none →
      specSuitable spec ⟨sm, bm, (n, false) :: fs⟩ = specSuitable spec ⟨sm, bm, fs⟩) := by
  constructor
  · intro spec req n hsuit hmem
    simp only [specSuitable, Bool.and_eq_true] at hsuit
    obtain ⟨⟨⟨_, _⟩, h2⟩, _⟩ := hsuit
    have := List.all_eq_true.mp h2 (n, true) hmem
    simp only [Bool.not_true, Bool.false_or] at this
    exact featureFound_exists spec.flags n this
  · intro spec sm bm n fs hnone
    simp only [specSuitable, List.all_cons, Bool.not_false, Bool.true_or,
      Bool.true_and]
    have h3 : (spec.flags.all fun f =>
        !(f.value == 2) || (lookupFeature ((n, false) :: fs) f.name == some true)) =
      (spec.flags.all fun f =>
        !(f.value == 2) || (lookupFeature fs f.name == some true)) := by
      refine all_congr_eq _ _ _ (fun f _ => ?_)
      by_cases he : n = f.name
      · subst he
        simp [lookupFeature, hnone]
      · simp [lookupFeature, he]
    rw [h3]

/-- Witness for C3's amended theorem: part 1 at `skinningSpec`/`skinReq`
with feature `Skin`, part 2 at `skinningSpec` with the false feature
`Zebra`. -/
theorem matcher_prefix_name_semantics_witness :
    (∃ f ∈ skinningSpec.flags, (strBytes "Skin").isPrefixOf f.name = true ∧ f.value ≠ 0) ∧
    specSuitable skinningSpec ⟨1, 0, [(strBytes "Zebra", false)]⟩ =
      specSuitable skinningSpec ⟨1, 0, []⟩ :=
  ⟨matcher_prefix_name_semantics.1 skinningSpec skinReq (strBytes "Skin")
      (by decide) (by decide),
   matcher_prefix_name_semantics.2 skinningSpec 1 0 (strBytes "Zebra") [] (by decide)⟩

/-- Claim C4: a spec with a `REQUIRED` flag whose name the requirement
map does not carry with boolean `true` (absent, or present as `false`)
never matches, regardless of any other compatibility. -/
theorem required_flag_enforcement (spec : ArchiveSpec) (req : ArchiveRequirements)
    (f : ArchiveFlag) (hf : f ∈ spec.flags) (hreq : f.value = 2)
    (hmiss : lookupFeature req.features f.name ≠ some true) :
    specSuitable spec req = false := by
  have hpred : (!(f.value == 2) || (lookupFeature req.features f.name == some true))
      = false := by
    rw [hreq]
    simp only [beq_self_eq_true, Bool.not_true, Bool.false_or]
    cases hl : lookupFeature req.features f.name with
    | none => rfl
    | some b =>
      cases b
      · rfl
      · exact absurd hl hmiss
  have hall : (spec.flags.all fun f =>
      !(f.value == 2) || (lookupFeature req.features f.name == some true)) = false := by
    cases hcall : spec.flags.all
        fun f => !(f.value == 2) || (lookupFeature req.features f.name == some true)
    · rfl
    · have := List.all_eq_true.mp hcall f hf
      rw [hpred] at this
      cases this
  simp [specSuitable, hall]

/-- Witness for C4: the spec whose only flag `X` is `REQUIRED` fails
against the empty requirement map. -/
theorem required_flag_enforcement_witness :
    specSuitable requiredXSpec ⟨1, 0, []⟩ = false :=
  required_flag_enforcement requiredXSpec ⟨1, 0, []⟩ ⟨strBytes "X", 2⟩
    (by decide) (by decide) (by decide)

/-- Claim C6 counterexample: on a freshly loaded one-spec archive,
`getDefaultMaterial` returns `none` — it is `return mMaterials[0];`, the
raw slot content, and does not compile the spec-0 package on first use as
claimed (the cache's compile log is untouched: the function does not even
take or produce cache state). -/
theorem getDefaultMaterial_no_compile_cex :
    getDefaultMaterial (mkCacheState oneSpecArchive) = none ∧
    oneSpecArchive.specs.length = 1 ∧
    (mkCacheState oneSpecArchive).compiles = [] := by
  refine ⟨by decide, by decide, by decide⟩

/-- Claim C6 (amended): `getDefaultMaterial` returns the cached handle in
slot 0 without compiling anything: on a freshly loaded archive it is
`none`, and after a `getMaterial` call whose scan selected spec 0 it is
exactly that call's handle. -/
theorem getDefaultMaterial_cached_slot_only :
    (∀ a : ReadableArchive, getDefaultMaterial (mkCacheState a) = none) ∧
    (∀ (s : CacheState) (req : ArchiveRequirements) (h : Nat),
      s.specs.length ≤ s.materials.length →
      firstSuitable s.specs req 0 = some 0 →
      (getMaterial s req).1 = some h →
      getDefaultMaterial (getMaterial s req).2 = some h) := by
  constructor
  · intro a
    unfold getDefaultMaterial mkCacheState
    cases a.specs with
    | nil => rfl
    | cons s rest => simp [List.replicate]
  · intro s req h hlen hfs hres
    have hlen0 : 0 < s.materials.length := by
      have := (firstSuitable_lt s.specs req 0 0 hfs).2
      omega
    cases hslot : s.materials.getD 0 none with
    | some h0 =>
      simp only [getMaterial, hfs, hslot, Option.some.injEq] at hres ⊢
      subst hres
      simp only [getDefaultMaterial]
      exact hslot
    | none =>
      simp only [getMaterial, hfs, hslot, Option.some.injEq] at hres ⊢
      subst hres
      simp only [getDefaultMaterial]
      exact getD_set_self _ 0 _ _ hlen0

/-- Witness for C6's amended theorem: fresh cache of `oneSpecArchive`,
then a lookup on `twoSpecCache` that matches spec 0. -/
theorem getDefaultMaterial_cached_slot_only_witness :
    getDefaultMaterial (mkCacheState oneSpecArchive) = none ∧
    getDefaultMaterial (getMaterial twoSpecCache plainReq).2 = some 0 :=
  ⟨getDefaultMaterial_cached_slot_only.1 oneSpecArchive,
   getDefaultMaterial_cached_slot_only.2 twoSpecCache plainReq 0
     (by decide) (by decide) (by decide)⟩

/-- Claim C9 counterexample: the line `ShadingModel=optional` has exactly
the claimed shape `identifier '=' supportValue` (`ShadingModel` is a
nonempty `[A-Za-z0-9_]+` identifier and `optional` a support keyword),
yet the parser dispatches on the `ShadingModel` keyword prefix and fails
with a syntax error instead of recording the flag. -/
theorem flag_keyword_dispatch_cex :
    addSpecLine oneMatBuilder "ShadingModel=optional".data
      = .error (.parseErr ⟨"m".data, 1, 14, "expected lowercase shading enum"⟩) ∧
    "ShadingModel".data ≠ [] ∧
    ("ShadingModel".data).all isAlphaNumericC = true ∧
    readArchiveFeatureC "optional".data = some (1, 8) := by
  refine ⟨by rfl, by decide, by decide, by decide⟩

/-- Claim C10: `addSpecLine` asserts `mMaterialIndex > -1`. On a fresh
builder (current index `-1`, no `addMaterial` yet) every line trips the
assertion; after any `addMaterial` (from any reachable builder state,
whose index is ≥ -1) the assertion can never fire. -/
theorem addSpecLine_requires_addMaterial :
    (∀ (n : Nat) (line : List Char),
      addSpecLine (mkWritableArchive n) line = .error .assertViolation) ∧
    (∀ (b : WritableArchive) (name : List Char) (pkg : List Nat) (line : List Char),
      -1 ≤ b.mMaterialIndex →
      addSpecLine (addMaterial b name pkg) line ≠ .error .assertViolation) := by
  constructor
  · intro n line
    rfl
  · intro b name pkg line h
    refine addSpecLine_never_assert _ ?_ line
    simp only [addMaterial]
    omega

/-- Witness for C10 at a fresh builder and after one `addMaterial`. -/
theorem addSpecLine_requires_addMaterial_witness :
    addSpecLine (mkWritableArchive 1) ['x'] = .error .assertViolation ∧
    addSpecLine (addMaterial (mkWritableArchive 1) "n".data []) ['x']
      ≠ .error .assertViolation :=
  ⟨addSpecLine_requires_addMaterial.1 1 ['x'],
   addSpecLine_requires_addMaterial.2 (mkWritableArchive 1) "n".data [] ['x']
     (by decide)⟩

/-- Claim C5: `getMaterial` scans the specs in stored order and returns
the handle held (after the call) in the slot of the *first* suitable
spec; it returns `none` exactly when no spec is suitable (`nullptr` in
the source — a normal return value, not an exception). -/
theorem getMaterial_first_match (s : CacheState) (req : ArchiveRequirements)
    (hlen : s.specs.length ≤ s.materials.length) :
    ((getMaterial s req).1 = none ↔ ∀ spec ∈ s.specs, specSuitable spec req = false) ∧
    (∀ i, i < s.specs.length → specSuitable (s.specs.getD i dSpec) req = true →
      (∀ j, j < i → specSuitable (s.specs.getD j dSpec) req = false) →
      ∃ h, (getMaterial s req).1 = some h ∧
        (getMaterial s req).2.materials.getD i none = some h) := by
  constructor
  · cases hfs : firstSuitable s.specs req 0 with
    | none =>
      simp only [getMaterial, hfs]
      simp only [true_iff]
      exact (firstSuitable_none_iff _ _ _).mp hfs
    | some i =>
      have h1 : (getMaterial s req).1 ≠ none := by
        simp only [getMaterial, hfs]
        cases s.materials.getD i none <;> simp
      constructor
      · intro h; exact absurd h h1
      · intro hall
        have := (firstSuitable_none_iff s.specs req 0).mpr hall
        rw [hfs] at this
        cases this
  · intro i hi hsuit hleast
    have hfs := firstSuitable_of_least s.specs req 0 i hi hsuit hleast
    rw [Nat.zero_add] at hfs
    cases hslot : s.materials.getD i none with
    | some h0 =>
      refine ⟨h0, ?_, ?_⟩
      · simp only [getMaterial, hfs, hslot]
      · simp only [getMaterial, hfs, hslot]
    | none =>
      refine ⟨s.compiles.length, ?_, ?_⟩
      · simp only [getMaterial, hfs, hslot]
      · simp only [getMaterial, hfs, hslot]
        exact getD_set_self _ i _ _ (lt_of_lt_of_le hi hlen)

/-- Witness for C5: on the two-spec cache, the requirement matching both
specs selects index 0, and the `Morphing` requirement (unsupported in
spec 0, absent in spec 1) yields `none`. -/
theorem getMaterial_first_match_witness :
    (∃ h, (getMaterial twoSpecCache plainReq).1 = some h ∧
      (getMaterial twoSpecCache plainReq).2.materials.getD 0 none = some h) ∧
    ((getMaterial twoSpecCache morphingReq).1 = none ↔
      ∀ spec ∈ twoSpecCache.specs, specSuitable spec morphingReq = false) :=
  ⟨(getMaterial_first_match twoSpecCache plainReq (by decide)).2 0 (by decide)
      (by decide) (fun j hj => absurd hj (Nat.not_lt_zero j)),
   (getMaterial_first_match twoSpecCache morphingReq (by decide)).1⟩

/-- Claim C7: lookup is idempotent — a second `getMaterial` with the same
requirement returns the same handle and leaves the cache (including the
compiler-invocation log) unchanged, and a single lookup invokes the
external compiler at most once. -/
theorem getMaterial_idempotent (s : CacheState) (req : ArchiveRequirements)
    (hlen : s.specs.length ≤ s.materials.length) :
    getMaterial (getMaterial s req).2 req = getMaterial s req ∧
    (getMaterial s req).2.compiles.length ≤ s.compiles.length + 1 := by
  cases hfs : firstSuitable s.specs req 0 with
  | none =>
    have hres : getMaterial s req = (none, s) := by simp only [getMaterial, hfs]
    rw [hres]
    exact ⟨hres, Nat.le_succ _⟩
  | some i =>
    have hi : i < s.materials.length := by
      have := (firstSuitable_lt s.specs req 0 i hfs).2
      omega
    cases hslot : s.materials.getD i none with
    | some h0 =>
      have hres : getMaterial s req = (some h0, s) := by
        simp only [getMaterial, hfs, hslot]
      rw [hres]
      exact ⟨hres, Nat.le_succ _⟩
    | none =>
      have hres : getMaterial s req = (some s.compiles.length,
          ⟨s.specs, s.materials.set i (some s.compiles.length), s.compiles ++ [i]⟩) := by
        simp only [getMaterial, hfs, hslot]
      have hset : (s.materials.set i (some s.compiles.length)).getD i none
          = some s.compiles.length := getD_set_self _ i _ _ hi
      rw [hres]
      constructor
      · simp only [getMaterial, hfs, hset]
      · simp only [List.length_append, List.length_cons, List.length_nil]
        omega

/-- Witness for C7 on the two-spec cache with the requirement matching
spec 0. -/
theorem getMaterial_idempotent_witness :
    getMaterial (getMaterial twoSpecCache plainReq).2 plainReq
      = getMaterial twoSpecCache plainReq ∧
    (getMaterial twoSpecCache plainReq).2.compiles.length
      ≤ twoSpecCache.compiles.length + 1 :=
  getMaterial_idempotent twoSpecCache plainReq (by decide)

theorem addSpecLine_fooEq_errors (b : WritableArchive) :
    ∃ e, addSpecLine b "Foo=".data = .error e := by
  by_cases h : b.mMaterialIndex ≤ -1
  · exact ⟨.assertViolation, by unfold addSpecLine; rw [if_pos h]⟩
  · refine ⟨.parseErr ⟨(curMaterial b).name, b.mLineNumber, 5,
      "expected unsupported / optional / required"⟩, ?_⟩
    unfold addSpecLine
    rw [if_neg h]
    rfl

/-- Claim C8: each malformed-line class (the claim's own example `Foo=`
with nothing after the `=`, a missing identifier, a missing `=`, a
trailing character after a valid statement) yields a syntax error
carrying the current variant's name, the current line number, the exact
1-based column, and a message; and a line list containing the malformed
line `Foo=` can never build — `addSpecLines` always aborts with an error,
producing no archive. -/
theorem addSpecLine_syntax_error_reporting :
    (∀ b : WritableArchive, -1 < b.mMaterialIndex →
      addSpecLine b "Foo=".data = .error (.parseErr ⟨(curMaterial b).name,
        b.mLineNumber, 5, "expected unsupported / optional / required"⟩) ∧
      addSpecLine b "=optional".data = .error (.parseErr ⟨(curMaterial b).name,
        b.mLineNumber, 1, "expected identifier"⟩) ∧
      addSpecLine b "Foo optional".data = .error (.parseErr ⟨(curMaterial b).name,
        b.mLineNumber, 6, "expected equal sign"⟩) ∧
      addSpecLine b "Foo=requiredz".data = .error (.parseErr ⟨(curMaterial b).name,
        b.mLineNumber, 13, "unexpected trailing character"⟩)) ∧
    (∀ (b : WritableArchive) (lines : List (List Char)), "Foo=".data ∈ lines →
      ∃ e, addSpecLines b lines = .error e) := by
  constructor
  · intro b hb
    have hne : ¬ b.mMaterialIndex ≤ -1 := by omega
    refine ⟨?_, ?_, ?_, ?_⟩ <;> (unfold addSpecLine; rw [if_neg hne]) <;> rfl
  · intro b lines
    induction lines generalizing b with
    | nil => intro h; cases h
    | cons l rest ih =>
      intro hmem
      rcases List.mem_cons.mp hmem with heq | hmem'
      · subst heq
        obtain ⟨e, he⟩ := addSpecLine_fooEq_errors b
        exact ⟨e, by simp [addSpecLines, he]⟩
      · cases hline : addSpecLine b l with
        | error e => exact ⟨e, by simp [addSpecLines, hline]⟩
        | ok b' =>
          obtain ⟨e, he⟩ := ih b' hmem'
          exact ⟨e, by simp [addSpecLines, hline, he]⟩

/-- Witness for C8 on the one-material builder: the claim's `Foo=`
example and the abort of a one-line build. -/
theorem addSpecLine_syntax_error_reporting_witness :
    addSpecLine oneMatBuilder "Foo=".data = .error (.parseErr
      ⟨(curMaterial oneMatBuilder).name, oneMatBuilder.mLineNumber, 5,
        "expected unsupported / optional / required"⟩) ∧
    (∃ e, addSpecLines oneMatBuilder ["Foo=".data] = .error e) :=
  ⟨(addSpecLine_syntax_error_reporting.1 oneMatBuilder (by decide)).1,
   addSpecLine_syntax_error_reporting.2 oneMatBuilder ["Foo=".data] (by simp)⟩

/-- Claim C9 (amended): a line `identifier ws? '=' ws? supportValue`
records the identifier with the corresponding `FeatureSupport` in the
current variant's flag map (last write wins — the lookup after the call
returns the new value), *provided* the identifier does not begin with the
statement keywords `BlendingMode` or `ShadingModel`, which take dispatch
precedence. -/
theorem flag_statement_records_support (b : WritableArchive)
    (id w1 w2 v : List Char) (sup : Nat)
    (hidx : -1 < b.mMaterialIndex)
    (hlen : b.mMaterialIndex.toNat < b.materials.length)
    (hid : id ≠ [])
    (hall : ∀ c ∈ id, isAlphaNumericC c = true)
    (hbm : kwBlendingMode.isPrefixOf id = false)
    (hsm : kwShadingModel.isPrefixOf id = false)
    (hw1 : ∀ c ∈ w1, isWhitespaceC c = true)
    (hw2 : ∀ c ∈ w2, isWhitespaceC c = true)
    (hv : (v, sup) ∈ [("unsupported".data, 0), ("optional".data, 1),
      ("required".data, 2)]) :
    ∃ b', addSpecLine b (id ++ (w1 ++ '=' :: (w2 ++ v))) = .ok b' ∧
      lookupFlagMap (curMaterial b').flags id = some sup ∧
      b'.mLineNumber = b.mLineNumber + 1 := by
  have hvfacts : ∃ n, readArchiveFeatureC v = some (sup, n) ∧ v.drop n = [] ∧
      (∀ c ∈ v.take 1, isWhitespaceC c = false) := by
    simp only [List.mem_cons, List.mem_singleton, Prod.mk.injEq,
      List.not_mem_nil, or_false] at hv
    rcases hv with ⟨hv1, hv2⟩ | ⟨hv1, hv2⟩ | ⟨hv1, hv2⟩ <;> subst hv1 <;> subst hv2
    · exact ⟨11, by decide, by decide, by decide⟩
    · exact ⟨8, by decide, by decide, by decide⟩
    · exact ⟨8, by decide, by decide, by decide⟩
  obtain ⟨n, hread, hdrop, hvhead⟩ := hvfacts
  have hrhead : ∀ c ∈ (w1 ++ '=' :: (w2 ++ v)).take 1, isAlphaNumericC c = false := by
    cases w1 with
    | nil => intro c hc; simp at hc; subst hc; decide
    | cons a as =>
      intro x hx
      simp at hx
      rw [hx]
      exact isWhitespaceC_not_alnum (hw1 a (by simp))
  have htake := takeWhile_append_all id (w1 ++ '=' :: (w2 ++ v)) hall hrhead
  have hbm' : kwBlendingMode.isPrefixOf (id ++ (w1 ++ '=' :: (w2 ++ v))) = false := by
    rw [isPrefixOf_append_of_head_not_alnum kwBlendingMode id _ (by decide) hrhead, hbm]
  have hsm' : kwShadingModel.isPrefixOf (id ++ (w1 ++ '=' :: (w2 ++ v))) = false := by
    rw [isPrefixOf_append_of_head_not_alnum kwShadingModel id _ (by decide) hrhead, hsm]
  have hws1 := takeWhile_append_all (p := isWhitespaceC) w1 ('=' :: (w2 ++ v)) hw1
    (by intro c hc; simp at hc; subst hc; decide)
  have hpeq : parseEq (w1 ++ '=' :: (w2 ++ v)) id.length
      = .ok (w2 ++ v, id.length + w1.length + 1) := by
    simp only [parseEq, hws1.1, hws1.2]
  have hws2 := takeWhile_append_all (p := isWhitespaceC) w2 v hw2
    (fun c hc => hvhead c hc)
  have henum : parseEnumTail readArchiveFeatureC
      "expected unsupported / optional / required" (w1 ++ '=' :: (w2 ++ v)) id.length
      = .ok (sup, [], id.length + w1.length + 1 + w2.length + n) := by
    simp only [parseEnumTail, hpeq, hws2.1, hws2.2, hread, hdrop]
  have hflag : parseFlagStmt (curMaterial b) (id ++ (w1 ++ '=' :: (w2 ++ v)))
      = .ok ({ curMaterial b with
                flags := mapInsert (curMaterial b).flags id sup }, [],
             id.length + w1.length + 1 + w2.length + n) := by
    simp only [parseFlagStmt, htake.1, htake.2, henum]
    rw [if_neg hid]
  obtain ⟨a, as, rfl⟩ : ∃ a as, id = a :: as := by
    cases id with
    | nil => cases hid rfl
    | cons a as => exact ⟨a, as, rfl⟩
  have hblank : isBlankOrComment ((a :: as) ++ (w1 ++ '=' :: (w2 ++ v))) = false := by
    simp only [List.cons_append, isBlankOrComment]
    have ha := hall a (by simp)
    cases hq : a == '#'
    · rfl
    · rw [beq_iff_eq] at hq
      subst hq
      exact absurd ha (by decide)
  have hline : addSpecLine b ((a :: as) ++ (w1 ++ '=' :: (w2 ++ v)))
      = .ok { b with
              materials := b.materials.set b.mMaterialIndex.toNat
                { curMaterial b with
                  flags := mapInsert (curMaterial b).flags (a :: as) sup },
              mLineNumber := b.mLineNumber + 1 } := by
    unfold addSpecLine
    rw [if_neg (by omega : ¬ b.mMaterialIndex ≤ -1)]
    simp only [hblank, Bool.false_eq_true, if_false, hbm', hsm', hflag]
  refine ⟨_, hline, ?_, rfl⟩
  have hcur : curMaterial { b with
      materials := b.materials.set b.mMaterialIndex.toNat
        { curMaterial b with
          flags := mapInsert (curMaterial b).flags (a :: as) sup },
      mLineNumber := b.mLineNumber + 1 }
      = { curMaterial b with
          flags := mapInsert (curMaterial b).flags (a :: as) sup } := by
    simp only [curMaterial]
    exact getD_set_self _ _ _ _ hlen
  rw [hcur]
  exact lookupFlagMap_mapInsert _ _ _

/-- Witness for C9's amended theorem: `Skinning = required` (with one
space before the `=`) on the one-material builder. -/
theorem flag_statement_records_support_witness :
    ∃ b', addSpecLine oneMatBuilder
        ("Skinning".data ++ ([' '] ++ '=' :: ([] ++ "required".data))) = .ok b' ∧
      lookupFlagMap (curMaterial b').flags "Skinning".data = some 2 ∧
      b'.mLineNumber = oneMatBuilder.mLineNumber + 1 :=
  flag_statement_records_support oneMatBuilder "Skinning".data [' '] []
    "required".data 2 (by decide) (by decide) (by decide) (by decide) (by decide)
    (by decide) (by decide) (by decide) (by decide)

end Uberz
